import Mathlib

/-!
Verification of the SPH (smoothed-particle hydrodynamics) 3D simulation.

The source is a single notebook defining a Gaussian smoothing kernel and its
gradient, pairwise separation matrices, a kernel-sum density estimator, a
polytropic pressure closure, a symmetrized pressure-gradient acceleration
with external gravity and damping terms, and a semi-implicit Euler main loop.

We embed the numerical pipeline over the real numbers: a particle array is a
function `Fin N → Vec3`, and the NumPy matrix operations become indexed
`Finset` sums.
-/

namespace SPH

/-- A 3D vector, one row of a NumPy `(N, 3)` array. -/
structure Vec3 where
  x : ℝ
  y : ℝ
  z : ℝ

/-- Gaussian smoothing kernel for 3D:
`w = (1 / (h * sqrt(pi)))^3 * exp(-r^2 / h^2)` with `r = sqrt(x^2+y^2+z^2)`. -/
noncomputable def kernel (x y z h : ℝ) : ℝ :=
  let r := Real.sqrt (x ^ 2 + y ^ 2 + z ^ 2)
  (1 / (h * Real.sqrt Real.pi)) ^ 3 * Real.exp (-r ^ 2 / h ^ 2)

/-- Smoothing-kernel gradient for 3D: the common scalar factor
`c = -2 * exp(-r^2/h^2) / h^5 / pi^(3/2)` (named `n` in the source)
times the displacement components. -/
noncomputable def gradKernel (x y z h : ℝ) : Vec3 :=
  let r := Real.sqrt (x ^ 2 + y ^ 2 + z ^ 2)
  let c := -2 * Real.exp (-r ^ 2 / h ^ 2) / h ^ 5 / Real.pi ^ ((3 : ℝ) / 2)
  ⟨c * x, c * y, c * z⟩

/-- Per-axis pairwise separation matrices:
`dx[i,j] = ri[i].x - rj[j].x` and likewise for `y` and `z`. -/
noncomputable def magnitude {M N : ℕ} (ri : Fin M → Vec3) (rj : Fin N → Vec3) :
    (Fin M → Fin N → ℝ) × (Fin M → Fin N → ℝ) × (Fin M → Fin N → ℝ) :=
  (fun i j => (ri i).x - (rj j).x,
   fun i j => (ri i).y - (rj j).y,
   fun i j => (ri i).z - (rj j).z)

/-- Density at the `M` sampling locations `r` from the `N` particles at `pos`:
`rho_i = sum_j m * kernel(dx[i,j], dy[i,j], dz[i,j], h)`. -/
noncomputable def density {M N : ℕ} (r : Fin M → Vec3) (pos : Fin N → Vec3)
    (m h : ℝ) : Fin M → ℝ := fun i =>
  ∑ j, m * kernel ((magnitude r pos).1 i j) ((magnitude r pos).2.1 i j)
    ((magnitude r pos).2.2 i j) h

/-- Polytropic equation of state: `P = k * rho^(1 + 1/n)`. -/
noncomputable def pressure (rho k n : ℝ) : ℝ :=
  k * rho ^ (1 + 1 / n)

/-- Acceleration of each particle: minus the symmetrized pressure-gradient
sum `sum_j m * (P_i/rho_i^2 + P_j/rho_j^2) * gradW[i,j]`, plus the external
forces `-lmbda * pos - nu * vel`. -/
noncomputable def acceleration {N : ℕ} (pos vel : Fin N → Vec3)
    (m h k n lmbda nu : ℝ) : Fin N → Vec3 :=
  let rho : Fin N → ℝ := density pos pos m h
  let P : Fin N → ℝ := fun i => pressure (rho i) k n
  let dW : Fin N → Fin N → Vec3 := fun i j =>
    gradKernel ((magnitude pos pos).1 i j) ((magnitude pos pos).2.1 i j)
      ((magnitude pos pos).2.2 i j) h
  fun i =>
    ⟨-(∑ j, m * (P i / rho i ^ 2 + P j / rho j ^ 2) * (dW i j).x)
        + (-lmbda * (pos i).x - nu * (vel i).x),
     -(∑ j, m * (P i / rho i ^ 2 + P j / rho j ^ 2) * (dW i j).y)
        + (-lmbda * (pos i).y - nu * (vel i).y),
     -(∑ j, m * (P i / rho i ^ 2 + P j / rho j ^ 2) * (dW i j).z)
        + (-lmbda * (pos i).z - nu * (vel i).z)⟩

/-- One iteration of the main loop:
`acc = acceleration(pos, vel, ...)`; `vel += acc * dt`; `pos += vel * dt`.
Returns the new `(pos, vel)` pair. -/
noncomputable def step {N : ℕ} (pos vel : Fin N → Vec3)
    (m h k n lmbda nu dt : ℝ) : (Fin N → Vec3) × (Fin N → Vec3) :=
  let acc := acceleration pos vel m h k n lmbda nu
  let vel2 : Fin N → Vec3 := fun i =>
    ⟨(vel i).x + (acc i).x * dt, (vel i).y + (acc i).y * dt,
     (vel i).z + (acc i).z * dt⟩
  let pos2 : Fin N → Vec3 := fun i =>
    ⟨(pos i).x + (vel2 i).x * dt, (pos i).y + (vel2 i).y * dt,
     (pos i).z + (vel2 i).z * dt⟩
  (pos2, vel2)

/-- The `x`-axis summand of the pairwise pressure term of `acceleration`:
`m * (P_i/rho_i^2 + P_j/rho_j^2) * dWx[i,j]`. -/
noncomputable def pairTermX {N : ℕ} (pos : Fin N → Vec3) (m h k n : ℝ)
    (i j : Fin N) : ℝ :=
  m * (pressure (density pos pos m h i) k n / density pos pos m h i ^ 2
      + pressure (density pos pos m h j) k n / density pos pos m h j ^ 2)
    * (gradKernel ((magnitude pos pos).1 i j) ((magnitude pos pos).2.1 i j)
        ((magnitude pos pos).2.2 i j) h).x

/-- The `y`-axis summand of the pairwise pressure term of `acceleration`. -/
noncomputable def pairTermY {N : ℕ} (pos : Fin N → Vec3) (m h k n : ℝ)
    (i j : Fin N) : ℝ :=
  m * (pressure (density pos pos m h i) k n / density pos pos m h i ^ 2
      + pressure (density pos pos m h j) k n / density pos pos m h j ^ 2)
    * (gradKernel ((magnitude pos pos).1 i j) ((magnitude pos pos).2.1 i j)
        ((magnitude pos pos).2.2 i j) h).y

/-- The `z`-axis summand of the pairwise pressure term of `acceleration`. -/
noncomputable def pairTermZ {N : ℕ} (pos : Fin N → Vec3) (m h k n : ℝ)
    (i j : Fin N) : ℝ :=
  m * (pressure (density pos pos m h i) k n / density pos pos m h i ^ 2
      + pressure (density pos pos m h j) k n / density pos pos m h j ^ 2)
    * (gradKernel ((magnitude pos pos).1 i j) ((magnitude pos pos).2.1 i j)
        ((magnitude pos pos).2.2 i j) h).z

/-- A single particle at rest at the origin: a concrete test configuration. -/
noncomputable def origin1 : Fin 1 → Vec3 := fun _ => ⟨0, 0, 0⟩

/-! ### Helper lemmas -/

/-- The Gaussian kernel is strictly positive when `h > 0`. -/
lemma kernel_pos (x y z h : ℝ) (hh : 0 < h) : 0 < kernel x y z h := by
  have hπ : 0 < Real.sqrt Real.pi := Real.sqrt_pos.mpr Real.pi_pos
  simp only [kernel]
  positivity

/-- Squared argument of the kernel collapses: `sqrt(s)^2 = s` for the
nonnegative sum of squares. -/
lemma sqrt_sq_sum (x y z : ℝ) :
    Real.sqrt (x ^ 2 + y ^ 2 + z ^ 2) ^ 2 = x ^ 2 + y ^ 2 + z ^ 2 :=
  Real.sq_sqrt (by positivity)

/-- Componentwise antisymmetry of the kernel gradient under negating the
displacement. -/
lemma gradKernel_neg (x y z h : ℝ) :
    (gradKernel (-x) (-y) (-z) h).x = -(gradKernel x y z h).x
    ∧ (gradKernel (-x) (-y) (-z) h).y = -(gradKernel x y z h).y
    ∧ (gradKernel (-x) (-y) (-z) h).z = -(gradKernel x y z h).z := by
  have hr : (-x) ^ 2 + (-y) ^ 2 + (-z) ^ 2 = x ^ 2 + y ^ 2 + z ^ 2 := by ring
  simp only [gradKernel, hr]
  exact ⟨by ring, by ring, by ring⟩

/-- The kernel gradient vanishes at zero separation. -/
lemma gradKernel_zero (h : ℝ) :
    (gradKernel 0 0 0 h).x = 0 ∧ (gradKernel 0 0 0 h).y = 0
    ∧ (gradKernel 0 0 0 h).z = 0 := by
  simp only [gradKernel]
  exact ⟨mul_zero _, mul_zero _, mul_zero _⟩

/-- A double sum of an antisymmetric function vanishes. -/
lemma sum_antisymm {N : ℕ} (f : Fin N → Fin N → ℝ)
    (hf : ∀ i j, f j i = -f i j) : (∑ i, ∑ j, f i j) = 0 := by
  have h1 : (∑ i, ∑ j, f i j) = -(∑ i, ∑ j, f i j) := by
    calc (∑ i, ∑ j, f i j) = ∑ j, ∑ i, f i j := Finset.sum_comm
      _ = ∑ j, ∑ i, -f j i :=
          Finset.sum_congr rfl fun j _ => Finset.sum_congr rfl fun i _ => hf j i
      _ = -(∑ j, ∑ i, f j i) := by
          simp [Finset.sum_neg_distrib]
  linarith

/-- Explicit form of the `x` component of `acceleration`. -/
lemma acceleration_x {N : ℕ} (pos vel : Fin N → Vec3) (m h k n lmbda nu : ℝ)
    (i : Fin N) :
    (acceleration pos vel m h k n lmbda nu i).x =
      -(∑ j, m * (pressure (density pos pos m h i) k n / density pos pos m h i ^ 2
            + pressure (density pos pos m h j) k n / density pos pos m h j ^ 2)
          * (gradKernel ((pos i).x - (pos j).x) ((pos i).y - (pos j).y)
              ((pos i).z - (pos j).z) h).x)
        + (-lmbda * (pos i).x - nu * (vel i).x) := rfl

/-- Explicit form of the `y` component of `acceleration`. -/
lemma acceleration_y {N : ℕ} (pos vel : Fin N → Vec3) (m h k n lmbda nu : ℝ)
    (i : Fin N) :
    (acceleration pos vel m h k n lmbda nu i).y =
      -(∑ j, m * (pressure (density pos pos m h i) k n / density pos pos m h i ^ 2
            + pressure (density pos pos m h j) k n / density pos pos m h j ^ 2)
          * (gradKernel ((pos i).x - (pos j).x) ((pos i).y - (pos j).y)
              ((pos i).z - (pos j).z) h).y)
        + (-lmbda * (pos i).y - nu * (vel i).y) := rfl

/-- Explicit form of the `z` component of `acceleration`. -/
lemma acceleration_z {N : ℕ} (pos vel : Fin N → Vec3) (m h k n lmbda nu : ℝ)
    (i : Fin N) :
    (acceleration pos vel m h k n lmbda nu i).z =
      -(∑ j, m * (pressure (density pos pos m h i) k n / density pos pos m h i ^ 2
            + pressure (density pos pos m h j) k n / density pos pos m h j ^ 2)
          * (gradKernel ((pos i).x - (pos j).x) ((pos i).y - (pos j).y)
              ((pos i).z - (pos j).z) h).z)
        + (-lmbda * (pos i).z - nu * (vel i).z) := rfl

/-- Density is strictly positive for positive mass, positive smoothing
length, and a non-empty particle set. -/
lemma density_pos {M N : ℕ} (r : Fin M → Vec3) (pos : Fin N → Vec3)
    (m h : ℝ) (hm : 0 < m) (hh : 0 < h) (hN : 0 < N) (i : Fin M) :
    0 < density r pos m h i := by
  refine Finset.sum_pos (fun j _ => mul_pos hm (kernel_pos _ _ _ _ hh)) ?_
  exact ⟨⟨0, hN⟩, Finset.mem_univ _⟩

/-- The mass-weighted sum of the pairwise pressure-gradient contribution
vanishes when the per-pair matrix is built from a symmetric scalar factor
and an antisymmetric gradient component. -/
lemma momentum_component_zero {N : ℕ} (m : ℝ) (A : Fin N → ℝ)
    (W : Fin N → Fin N → ℝ) (hW : ∀ i j, W j i = -W i j) :
    (∑ i, m * -(∑ j, m * (A i + A j) * W i j)) = 0 := by
  have h1 : (∑ i, ∑ j, m * (m * (A i + A j) * W i j)) = 0 :=
    sum_antisymm _ (fun i j => by rw [hW i j]; ring)
  calc ∑ i, m * -(∑ j, m * (A i + A j) * W i j)
      = ∑ i, -(∑ j, m * (m * (A i + A j) * W i j)) := by
        refine Finset.sum_congr rfl fun i _ => ?_
        rw [mul_neg, Finset.mul_sum]
    _ = -(∑ i, ∑ j, m * (m * (A i + A j) * W i j)) := by
        simp [Finset.sum_neg_distrib]
    _ = 0 := by rw [h1, neg_zero]

/-- The `x` component of `acceleration` is the negated sum of `pairTermX`
plus the external forces. -/
lemma acceleration_pairTermX {N : ℕ} (pos vel : Fin N → Vec3)
    (m h k n lmbda nu : ℝ) (i : Fin N) :
    (acceleration pos vel m h k n lmbda nu i).x =
      -(∑ j, pairTermX pos m h k n i j)
        + (-lmbda * (pos i).x - nu * (vel i).x) := rfl

/-- The `y` component of `acceleration` is the negated sum of `pairTermY`
plus the external forces. -/
lemma acceleration_pairTermY {N : ℕ} (pos vel : Fin N → Vec3)
    (m h k n lmbda nu : ℝ) (i : Fin N) :
    (acceleration pos vel m h k n lmbda nu i).y =
      -(∑ j, pairTermY pos m h k n i j)
        + (-lmbda * (pos i).y - nu * (vel i).y) := rfl

/-- The `z` component of `acceleration` is the negated sum of `pairTermZ`
plus the external forces. -/
lemma acceleration_pairTermZ {N : ℕ} (pos vel : Fin N → Vec3)
    (m h k n lmbda nu : ℝ) (i : Fin N) :
    (acceleration pos vel m h k n lmbda nu i).z =
      -(∑ j, pairTermZ pos m h k n i j)
        + (-lmbda * (pos i).z - nu * (vel i).z) := rfl

/-! ### Claim theorems -/

/-- C3: for every `h > 0` and displacement `(dx, dy, dz)`, the kernel equals
`(1/(h*sqrt(pi)))^3 * exp(-(dx^2+dy^2+dz^2)/h^2)`, is strictly positive, and
is invariant under flipping the sign of any single axis. -/
theorem kernel_spec (dx dy dz h : ℝ) (hh : 0 < h) :
    kernel dx dy dz h
      = (1 / (h * Real.sqrt Real.pi)) ^ 3
          * Real.exp (-(dx ^ 2 + dy ^ 2 + dz ^ 2) / h ^ 2)
    ∧ 0 < kernel dx dy dz h
    ∧ kernel (-dx) dy dz h = kernel dx dy dz h
    ∧ kernel dx (-dy) dz h = kernel dx dy dz h
    ∧ kernel dx dy (-dz) h = kernel dx dy dz h := by
  refine ⟨?_, kernel_pos _ _ _ _ hh, ?_, ?_, ?_⟩
  · simp only [kernel, sqrt_sq_sum]
  · simp only [kernel]
    rw [show (-dx) ^ 2 + dy ^ 2 + dz ^ 2 = dx ^ 2 + dy ^ 2 + dz ^ 2 by ring]
  · simp only [kernel]
    rw [show dx ^ 2 + (-dy) ^ 2 + dz ^ 2 = dx ^ 2 + dy ^ 2 + dz ^ 2 by ring]
  · simp only [kernel]
    rw [show dx ^ 2 + dy ^ 2 + (-dz) ^ 2 = dx ^ 2 + dy ^ 2 + dz ^ 2 by ring]

/-- Witness for C3 at the concrete input `dx = dy = dz = 0`, `h = 1`. -/
theorem kernel_spec_witness :
    (0 : ℝ) < 1
    ∧ (kernel 0 0 0 1
        = (1 / (1 * Real.sqrt Real.pi)) ^ 3
            * Real.exp (-((0 : ℝ) ^ 2 + 0 ^ 2 + 0 ^ 2) / 1 ^ 2)
      ∧ 0 < kernel 0 0 0 1
      ∧ kernel (-0) 0 0 1 = kernel 0 0 0 1
      ∧ kernel 0 (-0) 0 1 = kernel 0 0 0 1
      ∧ kernel 0 0 (-0) 1 = kernel 0 0 0 1) :=
  ⟨by norm_num, kernel_spec 0 0 0 1 (by norm_num)⟩

/-- C4: the kernel gradient is antisymmetric under negating the displacement,
componentwise, and is exactly the zero vector at zero separation. -/
theorem gradKernel_spec (h : ℝ) :
    (∀ dx dy dz : ℝ,
      (gradKernel (-dx) (-dy) (-dz) h).x = -(gradKernel dx dy dz h).x
      ∧ (gradKernel (-dx) (-dy) (-dz) h).y = -(gradKernel dx dy dz h).y
      ∧ (gradKernel (-dx) (-dy) (-dz) h).z = -(gradKernel dx dy dz h).z)
    ∧ ((gradKernel 0 0 0 h).x = 0 ∧ (gradKernel 0 0 0 h).y = 0
        ∧ (gradKernel 0 0 0 h).z = 0) :=
  ⟨fun dx dy dz => gradKernel_neg dx dy dz h, gradKernel_zero h⟩

/-- C6: `magnitude` returns the three per-axis separation matrices
`dx[i,j] = ri[i].x - rj[j].x` (and likewise `y`, `z`), and on a self-pairing
every diagonal entry is zero. -/
theorem magnitude_spec {M N : ℕ} (ri : Fin M → Vec3) (rj : Fin N → Vec3) :
    (∀ (i : Fin M) (j : Fin N),
      (magnitude ri rj).1 i j = (ri i).x - (rj j).x
      ∧ (magnitude ri rj).2.1 i j = (ri i).y - (rj j).y
      ∧ (magnitude ri rj).2.2 i j = (ri i).z - (rj j).z)
    ∧ (∀ i : Fin M,
      (magnitude ri ri).1 i i = 0 ∧ (magnitude ri ri).2.1 i i = 0
      ∧ (magnitude ri ri).2.2 i i = 0) := by
  constructor
  · exact fun i j => ⟨rfl, rfl, rfl⟩
  · intro i
    simp only [magnitude]
    exact ⟨sub_self _, sub_self _, sub_self _⟩

/-- C7: the pressure closure is `P = k * rho^(1 + 1/n)` and, for `k > 0` and
`n > 0`, is strictly increasing in the density on positive densities. -/
theorem pressure_spec (k n : ℝ) :
    (∀ rho : ℝ, pressure rho k n = k * rho ^ (1 + 1 / n))
    ∧ (∀ rho1 rho2 : ℝ, 0 < k → 0 < n → 0 < rho1 → rho1 < rho2 →
        pressure rho1 k n < pressure rho2 k n) := by
  refine ⟨fun rho => rfl, fun rho1 rho2 hk hn h1 h12 => ?_⟩
  have he : 0 < 1 + 1 / n := by positivity
  exact mul_lt_mul_of_pos_left (Real.rpow_lt_rpow h1.le h12 he) hk

/-- Witness for C7 at `k = 1`, `n = 1`, `rho1 = 1`, `rho2 = 2`. -/
theorem pressure_spec_witness :
    (0 : ℝ) < 1 ∧ (1 : ℝ) < 2 ∧ pressure 1 1 1 < pressure 2 1 1 :=
  ⟨by norm_num, by norm_num,
    (pressure_spec 1 1).2 1 2 (by norm_num) (by norm_num) (by norm_num)
      (by norm_num)⟩

/-- C2: `density` returns the kernel-sum `rho_i = sum_j m * kernel(r_i - r_j, h)`,
every entry is strictly positive for `h > 0`, `m > 0` and a non-empty particle
set, and on a self-sampling the `j = i` self-term is included, not excluded. -/
theorem density_spec {M N : ℕ} (r : Fin M → Vec3) (pos : Fin N → Vec3)
    (m h : ℝ) (hh : 0 < h) (hm : 0 < m) (hN : 0 < N) :
    (∀ i, density r pos m h i
        = ∑ j, m * kernel ((r i).x - (pos j).x) ((r i).y - (pos j).y)
            ((r i).z - (pos j).z) h)
    ∧ (∀ i, 0 < density r pos m h i)
    ∧ (∀ (p : Fin N → Vec3) (i : Fin N),
        density p p m h i
          = m * kernel 0 0 0 h
            + ∑ j ∈ Finset.univ.erase i,
                m * kernel ((p i).x - (p j).x) ((p i).y - (p j).y)
                  ((p i).z - (p j).z) h) := by
  refine ⟨fun i => rfl, fun i => density_pos r pos m h hm hh hN i, fun p i => ?_⟩
  have h1 := Finset.add_sum_erase Finset.univ
    (fun j => m * kernel ((p i).x - (p j).x) ((p i).y - (p j).y)
      ((p i).z - (p j).z) h) (Finset.mem_univ i)
  calc density p p m h i
      = m * kernel ((p i).x - (p i).x) ((p i).y - (p i).y)
          ((p i).z - (p i).z) h
        + ∑ j ∈ Finset.univ.erase i,
            m * kernel ((p i).x - (p j).x) ((p i).y - (p j).y)
              ((p i).z - (p j).z) h := h1.symm
    _ = m * kernel 0 0 0 h
        + ∑ j ∈ Finset.univ.erase i,
            m * kernel ((p i).x - (p j).x) ((p i).y - (p j).y)
              ((p i).z - (p j).z) h := by
        rw [sub_self, sub_self, sub_self]

/-- Witness for C2 at a single particle at the origin, `m = h = 1`. -/
theorem density_spec_witness :
    (0 : ℝ) < 1 ∧ (0 : ℝ) < 1 ∧ 0 < 1
    ∧ ((∀ i, density origin1 origin1 1 1 i
          = ∑ j, 1 * kernel ((origin1 i).x - (origin1 j).x)
              ((origin1 i).y - (origin1 j).y)
              ((origin1 i).z - (origin1 j).z) 1)
      ∧ (∀ i, 0 < density origin1 origin1 1 1 i)
      ∧ (∀ (p : Fin 1 → Vec3) (i : Fin 1),
          density p p 1 1 i
            = 1 * kernel 0 0 0 1
              + ∑ j ∈ Finset.univ.erase i,
                  1 * kernel ((p i).x - (p j).x) ((p i).y - (p j).y)
                    ((p i).z - (p j).z) 1)) :=
  ⟨by norm_num, by norm_num, by norm_num,
    density_spec origin1 origin1 1 1 (by norm_num) (by norm_num) (by norm_num)⟩

/-- C5: one main-loop iteration is semi-implicit Euler — the new velocity is
`vel + acc * dt` with `acc` evaluated at the pre-step state, and the new
position is `pos + vel_new * dt`, using the newly updated velocity. -/
theorem step_spec {N : ℕ} (pos vel : Fin N → Vec3) (m h k n lmbda nu dt : ℝ)
    (i : Fin N) :
    ((step pos vel m h k n lmbda nu dt).2 i).x
        = (vel i).x + (acceleration pos vel m h k n lmbda nu i).x * dt
    ∧ ((step pos vel m h k n lmbda nu dt).2 i).y
        = (vel i).y + (acceleration pos vel m h k n lmbda nu i).y * dt
    ∧ ((step pos vel m h k n lmbda nu dt).2 i).z
        = (vel i).z + (acceleration pos vel m h k n lmbda nu i).z * dt
    ∧ ((step pos vel m h k n lmbda nu dt).1 i).x
        = (pos i).x
          + ((vel i).x + (acceleration pos vel m h k n lmbda nu i).x * dt) * dt
    ∧ ((step pos vel m h k n lmbda nu dt).1 i).y
        = (pos i).y
          + ((vel i).y + (acceleration pos vel m h k n lmbda nu i).y * dt) * dt
    ∧ ((step pos vel m h k n lmbda nu dt).1 i).z
        = (pos i).z
          + ((vel i).z + (acceleration pos vel m h k n lmbda nu i).z * dt) * dt :=
  ⟨rfl, rfl, rfl, rfl, rfl, rfl⟩

/-- C8: for a single particle, density reduces to the self-kernel value
`m * kernel(0,0,0,h)`, the pairwise pressure-gradient sum is exactly zero on
each axis, and the net acceleration is exactly `-lmbda * pos - nu * vel`. -/
theorem single_particle_spec (pos vel : Fin 1 → Vec3) (m h k n lmbda nu : ℝ) :
    density pos pos m h 0 = m * kernel 0 0 0 h
    ∧ (∑ j, pairTermX pos m h k n 0 j) = 0
    ∧ (∑ j, pairTermY pos m h k n 0 j) = 0
    ∧ (∑ j, pairTermZ pos m h k n 0 j) = 0
    ∧ (acceleration pos vel m h k n lmbda nu 0).x
        = -lmbda * (pos 0).x - nu * (vel 0).x
    ∧ (acceleration pos vel m h k n lmbda nu 0).y
        = -lmbda * (pos 0).y - nu * (vel 0).y
    ∧ (acceleration pos vel m h k n lmbda nu 0).z
        = -lmbda * (pos 0).z - nu * (vel 0).z := by
  have hdiag : ∀ f : Fin 1 → Vec3, (magnitude f f).1 0 0 = 0
      ∧ (magnitude f f).2.1 0 0 = 0 ∧ (magnitude f f).2.2 0 0 = 0 :=
    fun f => ⟨sub_self _, sub_self _, sub_self _⟩
  have hx : (∑ j, pairTermX pos m h k n 0 j) = 0 := by
    rw [Fin.sum_univ_one]
    simp only [pairTermX, (hdiag pos).1, (hdiag pos).2.1, (hdiag pos).2.2,
      (gradKernel_zero h).1, mul_zero]
  have hy : (∑ j, pairTermY pos m h k n 0 j) = 0 := by
    rw [Fin.sum_univ_one]
    simp only [pairTermY, (hdiag pos).1, (hdiag pos).2.1, (hdiag pos).2.2,
      (gradKernel_zero h).2.1, mul_zero]
  have hz : (∑ j, pairTermZ pos m h k n 0 j) = 0 := by
    rw [Fin.sum_univ_one]
    simp only [pairTermZ, (hdiag pos).1, (hdiag pos).2.1, (hdiag pos).2.2,
      (gradKernel_zero h).2.2, mul_zero]
  refine ⟨?_, hx, hy, hz, ?_, ?_, ?_⟩
  · show (∑ j, m * kernel ((magnitude pos pos).1 0 j) ((magnitude pos pos).2.1 0 j)
        ((magnitude pos pos).2.2 0 j) h) = m * kernel 0 0 0 h
    rw [Fin.sum_univ_one, (hdiag pos).1, (hdiag pos).2.1, (hdiag pos).2.2]
  · rw [acceleration_pairTermX, hx, neg_zero, zero_add]
  · rw [acceleration_pairTermY, hy, neg_zero, zero_add]
  · rw [acceleration_pairTermZ, hz, neg_zero, zero_add]

/-- C10: the self-pair (`j = i`) summand of the pairwise pressure sum is
exactly zero on each axis, so including the diagonal in the sum over `j`
never changes any particle's acceleration: the full sum equals the sum with
the diagonal entry removed. -/
theorem diagonal_term_spec {N : ℕ} (pos : Fin N → Vec3) (m h k n : ℝ)
    (hρ : ∀ j, density pos pos m h j ≠ 0) (i : Fin N) :
    (pairTermX pos m h k n i i = 0 ∧ pairTermY pos m h k n i i = 0
      ∧ pairTermZ pos m h k n i i = 0)
    ∧ ((∑ j, pairTermX pos m h k n i j)
          = ∑ j ∈ Finset.univ.erase i, pairTermX pos m h k n i j
      ∧ (∑ j, pairTermY pos m h k n i j)
          = ∑ j ∈ Finset.univ.erase i, pairTermY pos m h k n i j
      ∧ (∑ j, pairTermZ pos m h k n i j)
          = ∑ j ∈ Finset.univ.erase i, pairTermZ pos m h k n i j) := by
  have hdx : (magnitude pos pos).1 i i = 0 := sub_self _
  have hdy : (magnitude pos pos).2.1 i i = 0 := sub_self _
  have hdz : (magnitude pos pos).2.2 i i = 0 := sub_self _
  have hx : pairTermX pos m h k n i i = 0 := by
    simp only [pairTermX, hdx, hdy, hdz, (gradKernel_zero h).1, mul_zero]
  have hy : pairTermY pos m h k n i i = 0 := by
    simp only [pairTermY, hdx, hdy, hdz, (gradKernel_zero h).2.1, mul_zero]
  have hz : pairTermZ pos m h k n i i = 0 := by
    simp only [pairTermZ, hdx, hdy, hdz, (gradKernel_zero h).2.2, mul_zero]
  exact ⟨⟨hx, hy, hz⟩,
    (Finset.sum_erase Finset.univ hx).symm,
    (Finset.sum_erase Finset.univ hy).symm,
    (Finset.sum_erase Finset.univ hz).symm⟩

/-- Witness for C10 at a single particle at the origin, `m = h = k = n = 1`. -/
theorem diagonal_term_spec_witness :
    (∀ j : Fin 1, density origin1 origin1 1 1 j ≠ 0)
    ∧ ((pairTermX origin1 1 1 1 1 0 0 = 0 ∧ pairTermY origin1 1 1 1 1 0 0 = 0
        ∧ pairTermZ origin1 1 1 1 1 0 0 = 0)
      ∧ ((∑ j, pairTermX origin1 1 1 1 1 0 j)
            = ∑ j ∈ Finset.univ.erase 0, pairTermX origin1 1 1 1 1 0 j
        ∧ (∑ j, pairTermY origin1 1 1 1 1 0 j)
            = ∑ j ∈ Finset.univ.erase 0, pairTermY origin1 1 1 1 1 0 j
        ∧ (∑ j, pairTermZ origin1 1 1 1 1 0 j)
            = ∑ j ∈ Finset.univ.erase 0, pairTermZ origin1 1 1 1 1 0 j)) := by
  have hρ : ∀ j : Fin 1, density origin1 origin1 1 1 j ≠ 0 := fun j =>
    (density_pos origin1 origin1 1 1 (by norm_num) (by norm_num)
      (by norm_num) j).ne'
  exact ⟨hρ, diagonal_term_spec origin1 1 1 1 1 hρ 0⟩

/-- C1: with `lmbda = 0` and `nu = 0`, for a non-empty particle set with all
densities nonzero, the mass-weighted total of the accelerations vanishes on
every axis: the symmetric pressure factor combined with the antisymmetric
kernel gradient makes the pairwise forces cancel exactly. -/
theorem acceleration_momentum_spec {N : ℕ} (pos vel : Fin N → Vec3)
    (m h k n : ℝ) (hN : 0 < N) (hρ : ∀ i, density pos pos m h i ≠ 0) :
    (∑ i, m * (acceleration pos vel m h k n 0 0 i).x) = 0
    ∧ (∑ i, m * (acceleration pos vel m h k n 0 0 i).y) = 0
    ∧ (∑ i, m * (acceleration pos vel m h k n 0 0 i).z) = 0 := by
  have hWx : ∀ i j : Fin N,
      (gradKernel ((magnitude pos pos).1 j i) ((magnitude pos pos).2.1 j i)
        ((magnitude pos pos).2.2 j i) h).x
      = -(gradKernel ((magnitude pos pos).1 i j) ((magnitude pos pos).2.1 i j)
        ((magnitude pos pos).2.2 i j) h).x := by
    intro i j
    have h1 := (gradKernel_neg ((magnitude pos pos).1 i j)
      ((magnitude pos pos).2.1 i j) ((magnitude pos pos).2.2 i j) h).1
    simpa [magnitude, neg_sub] using h1
  have hWy : ∀ i j : Fin N,
      (gradKernel ((magnitude pos pos).1 j i) ((magnitude pos pos).2.1 j i)
        ((magnitude pos pos).2.2 j i) h).y
      = -(gradKernel ((magnitude pos pos).1 i j) ((magnitude pos pos).2.1 i j)
        ((magnitude pos pos).2.2 i j) h).y := by
    intro i j
    have h1 := (gradKernel_neg ((magnitude pos pos).1 i j)
      ((magnitude pos pos).2.1 i j) ((magnitude pos pos).2.2 i j) h).2.1
    simpa [magnitude, neg_sub] using h1
  have hWz : ∀ i j : Fin N,
      (gradKernel ((magnitude pos pos).1 j i) ((magnitude pos pos).2.1 j i)
        ((magnitude pos pos).2.2 j i) h).z
      = -(gradKernel ((magnitude pos pos).1 i j) ((magnitude pos pos).2.1 i j)
        ((magnitude pos pos).2.2 i j) h).z := by
    intro i j
    have h1 := (gradKernel_neg ((magnitude pos pos).1 i j)
      ((magnitude pos pos).2.1 i j) ((magnitude pos pos).2.2 i j) h).2.2
    simpa [magnitude, neg_sub] using h1
  refine ⟨?_, ?_, ?_⟩
  · have hz0 := momentum_component_zero m
      (fun i => pressure (density pos pos m h i) k n / density pos pos m h i ^ 2)
      (fun i j => (gradKernel ((magnitude pos pos).1 i j)
        ((magnitude pos pos).2.1 i j) ((magnitude pos pos).2.2 i j) h).x) hWx
    refine Eq.trans (Finset.sum_congr rfl fun i _ => ?_) hz0
    show m * (acceleration pos vel m h k n 0 0 i).x
        = m * -(∑ j, pairTermX pos m h k n i j)
    rw [acceleration_pairTermX]
    ring
  · have hz0 := momentum_component_zero m
      (fun i => pressure (density pos pos m h i) k n / density pos pos m h i ^ 2)
      (fun i j => (gradKernel ((magnitude pos pos).1 i j)
        ((magnitude pos pos).2.1 i j) ((magnitude pos pos).2.2 i j) h).y) hWy
    refine Eq.trans (Finset.sum_congr rfl fun i _ => ?_) hz0
    show m * (acceleration pos vel m h k n 0 0 i).y
        = m * -(∑ j, pairTermY pos m h k n i j)
    rw [acceleration_pairTermY]
    ring
  · have hz0 := momentum_component_zero m
      (fun i => pressure (density pos pos m h i) k n / density pos pos m h i ^ 2)
      (fun i j => (gradKernel ((magnitude pos pos).1 i j)
        ((magnitude pos pos).2.1 i j) ((magnitude pos pos).2.2 i j) h).z) hWz
    refine Eq.trans (Finset.sum_congr rfl fun i _ => ?_) hz0
    show m * (acceleration pos vel m h k n 0 0 i).z
        = m * -(∑ j, pairTermZ pos m h k n i j)
    rw [acceleration_pairTermZ]
    ring

/-- Witness for C1 at a single particle at the origin, `m = h = k = n = 1`. -/
theorem acceleration_momentum_spec_witness :
    0 < 1
    ∧ (∀ i : Fin 1, density origin1 origin1 1 1 i ≠ 0)
    ∧ ((∑ i, (1 : ℝ) * (acceleration origin1 origin1 1 1 1 1 0 0 i).x) = 0
      ∧ (∑ i, (1 : ℝ) * (acceleration origin1 origin1 1 1 1 1 0 0 i).y) = 0
      ∧ (∑ i, (1 : ℝ) * (acceleration origin1 origin1 1 1 1 1 0 0 i).z) = 0) := by
  have hρ : ∀ i : Fin 1, density origin1 origin1 1 1 i ≠ 0 := fun i =>
    (density_pos origin1 origin1 1 1 (by norm_num) (by norm_num)
      (by norm_num) i).ne'
  exact ⟨by norm_num, hρ,
    acceleration_momentum_spec origin1 origin1 1 1 1 1 (by norm_num) hρ⟩

end SPH
